import Mathlib

/-!
Shallow embedding of `scripts/generate-lift-tiles.py` (tile-pyramid generator
for ski-lift GeoJSON data), and proofs of the specification's claims about it.

Coordinate arithmetic is modelled over the exact reals `ℝ`; Python's `int()`
truncation toward zero is modelled by `pyInt`.  Fallible operations (Python
exceptions such as `ZeroDivisionError` and `ValueError`) are modelled with
`Option` / error flags.  IEEE special values (NaN, ±infinity), which matter
only for the per-tile vertex filter, are modelled by the dedicated `PyFloat`
type in the rasterizer layer further down.
-/

open Real

/-- Python `math.radians`: degrees to radians. -/
noncomputable def radians (d : ℝ) : ℝ := d * (π / 180)

/-- Python `math.degrees`: radians to degrees. -/
noncomputable def degrees (r : ℝ) : ℝ := r * (180 / π)

/-- Python `int()` applied to a float: truncation toward zero. -/
noncomputable def pyInt (r : ℝ) : ℤ := if 0 ≤ r then ⌊r⌋ else ⌈r⌉

/-- Embedding of `lon_lat_to_tile(lon, lat, zoom)` (lines 25–31 of the
source): `x = int((lon + 180)/360 * n)`,
`y = int((1 - asinh(tan(lat_rad))/pi)/2 * n)` with `n = 2.0 ** zoom`. -/
noncomputable def lon_lat_to_tile (lon lat : ℝ) (zoom : ℕ) : ℤ × ℤ :=
  let n : ℝ := 2 ^ zoom
  (pyInt ((lon + 180) / 360 * n),
   pyInt ((1 - arsinh (tan (radians lat)) / π) / 2 * n))

/-- Embedding of `tile_to_lon_lat(x, y, zoom)` (lines 34–40 of the source):
NW corner of the tile, `lon = x/n*360 - 180`,
`lat = degrees(atan(sinh(pi * (1 - 2*y/n))))`. -/
noncomputable def tile_to_lon_lat (x y : ℤ) (zoom : ℕ) : ℝ × ℝ :=
  let n : ℝ := 2 ^ zoom
  ((x : ℝ) / n * 360 - 180,
   degrees (arctan (sinh (π * (1 - 2 * (y : ℝ) / n)))))

/-- Embedding of `lon_lat_to_pixel(lon, lat, zoom, tile_x, tile_y, tile_size)`
(lines 43–56 of the source).  The two divisions by `lon_range` and
`lat_range` raise `ZeroDivisionError` in Python when the corresponding span
is zero; that failure is modelled by `none`. -/
noncomputable def lon_lat_to_pixel (lon lat : ℝ) (zoom : ℕ) (tile_x tile_y : ℤ)
    (tile_size : ℕ) : Option (ℤ × ℤ) :=
  let tileNW := tile_to_lon_lat tile_x tile_y zoom
  let tileSE := tile_to_lon_lat (tile_x + 1) (tile_y + 1) zoom
  let lon_range := tileSE.1 - tileNW.1
  let lat_range := tileSE.2 - tileNW.2
  if lon_range = 0 ∨ lat_range = 0 then none
  else some (pyInt ((lon - tileNW.1) / lon_range * tile_size),
             pyInt ((lat - tileNW.2) / lat_range * tile_size))

/-- The fixed color table of `get_lift_color` (lines 61–71 of the source). -/
def liftColorTable : List (String × String) :=
  [("gondola", "#FF0000"),
   ("cable_car", "#FF0000"),
   ("chair_lift", "#0066FF"),
   ("drag_lift", "#00CC00"),
   ("t-bar", "#00CC00"),
   ("j-bar", "#00CC00"),
   ("platter", "#00CC00"),
   ("magic_carpet", "#9933FF"),
   ("rope_tow", "#00CC00")]

/-- Embedding of `get_lift_color(lift_type)` (lines 59–72 of the source):
`colors.get(lift_type, '#888888')`. -/
def get_lift_color (lift_type : String) : String :=
  (liftColorTable.lookup lift_type).getD "#888888"

/-- Embedding of `get_lift_width(zoom)` (lines 75–84 of the source). -/
def get_lift_width (zoom : ℕ) : ℕ :=
  if zoom ≤ 11 then 1
  else if zoom ≤ 13 then 2
  else if zoom ≤ 15 then 3
  else 4

/-- Embedding of the per-feature style resolution at lines 153–154 of the
source: `feature['properties'].get('type', 'chair_lift')` followed by
`get_lift_color`.  `none` models a properties dictionary without a
`'type'` key. -/
def resolveFeatureColor (liftType : Option String) : String :=
  get_lift_color (liftType.getD "chair_lift")

/-- Inclusive tile-index range for one zoom level. -/
structure TileRange where
  minX : ℤ
  maxX : ℤ
  minY : ℤ
  maxY : ℤ

/-- Embedding of the tile range computation at lines 123–124 of the source:
`min_tile_x, max_tile_y = lon_lat_to_tile(min_lon, min_lat, zoom)` and
`max_tile_x, min_tile_y = lon_lat_to_tile(max_lon, max_lat, zoom)`.
No clamping is performed by the source. -/
noncomputable def tileRangePlan (min_lon min_lat max_lon max_lat : ℝ)
    (zoom : ℕ) : TileRange :=
  let p := lon_lat_to_tile min_lon min_lat zoom
  let q := lon_lat_to_tile max_lon max_lat zoom
  ⟨p.1, q.1, q.2, p.2⟩

/-- The set of colors `get_lift_color` can ever return: the table entries
plus the gray default. -/
def validLiftColors : List String :=
  ["#FF0000", "#0066FF", "#00CC00", "#9933FF", "#888888"]

/-- Any value successfully looked up in the lift color table is one of the
four table colors. -/
lemma lookup_liftColorTable_mem (s c : String)
    (h : liftColorTable.lookup s = some c) :
    c ∈ ["#FF0000", "#0066FF", "#00CC00", "#9933FF"] := by
  simp only [liftColorTable, List.lookup] at h
  repeat' split at h
  all_goals simp_all

/-- C4: `get_lift_color` is total: for every string it returns one of the
valid colors, and for every string not in the fixed table it returns the
neutral gray default `#888888`. -/
theorem getLiftColor_total (s : String) :
    get_lift_color s ∈ validLiftColors ∧
      (liftColorTable.lookup s = none → get_lift_color s = "#888888") := by
  constructor
  · rcases h : liftColorTable.lookup s with _ | c
    · simp [get_lift_color, h, validLiftColors]
    · have hc := lookup_liftColorTable_mem s c h
      simp only [get_lift_color, h, Option.getD_some]
      simp only [List.mem_cons, List.mem_singleton] at hc
      rcases hc with rfl | rfl | rfl | rfl | hc <;>
        simp_all [validLiftColors]
  · intro h
    simp [get_lift_color, h]

/-- Witness for C4 at the concrete unknown type `"zipline"`. -/
theorem getLiftColor_total_witness :
    liftColorTable.lookup "zipline" = none ∧ get_lift_color "zipline" = "#888888" :=
  ⟨by decide, (getLiftColor_total "zipline").2 (by decide)⟩

/-- C10: a feature whose properties have no `'type'` key resolves to the
chair-lift color `#0066FF`, and the gray fallback `#888888` is reached only
when a `'type'` value is present but absent from the color table. -/
theorem resolveFeatureColor_default (t : Option String) :
    (t = none → resolveFeatureColor t = "#0066FF") ∧
      (resolveFeatureColor t = "#888888" →
        ∃ s, t = some s ∧ liftColorTable.lookup s = none) := by
  constructor
  · rintro rfl
    decide
  · intro h
    rcases t with _ | s
    · exact absurd h (by decide)
    · refine ⟨s, rfl, ?_⟩
      rcases hl : liftColorTable.lookup s with _ | c
      · rfl
      · have hc := lookup_liftColorTable_mem s c hl
        have hcol : resolveFeatureColor (some s) = c := by
          simp [resolveFeatureColor, get_lift_color, hl]
        rw [hcol] at h
        subst h
        simp at hc

/-- Powers of two are positive reals. -/
lemma two_pow_pos' (zoom : ℕ) : (0 : ℝ) < 2 ^ zoom := by positivity

/-- On nonnegative arguments, Python truncation agrees with the floor. -/
lemma pyInt_eq_floor {r : ℝ} (h : 0 ≤ r) : pyInt r = ⌊r⌋ := if_pos h

/-- Converting degrees to radians and back is the identity. -/
lemma degrees_radians (x : ℝ) : degrees (radians x) = x := by
  unfold degrees radians
  field_simp

/-- A latitude of absolute value below 90 degrees converts to a radian value
strictly inside the principal branch of the tangent. -/
lemma radians_mem_Ioo {lat : ℝ} (h : |lat| < 90) :
    -(π / 2) < radians lat ∧ radians lat < π / 2 := by
  rw [abs_lt] at h
  have hπ := pi_pos
  unfold radians
  constructor <;> nlinarith [h.1, h.2]

/-- The function `degrees` is monotone. -/
lemma degrees_le_degrees {a b : ℝ} (h : a ≤ b) : degrees a ≤ degrees b := by
  unfold degrees
  have hπ := pi_pos
  have h180 : (0 : ℝ) < 180 / π := by positivity
  exact mul_le_mul_of_nonneg_right h h180.le

/-- The function `degrees` is strictly monotone. -/
lemma degrees_lt_degrees {a b : ℝ} (h : a < b) : degrees a < degrees b := by
  unfold degrees
  have hπ := pi_pos
  have h180 : (0 : ℝ) < 180 / π := by positivity
  exact mul_lt_mul_of_pos_right h h180

/-- The NW longitude of the tile computed for `lon` lies at or west of
`lon`, provided `lon ≥ -180` (so that truncation is a floor). -/
lemma tileLonNW_le (lon : ℝ) (zoom : ℕ) (h : -180 ≤ lon) :
    ((pyInt ((lon + 180) / 360 * 2 ^ zoom) : ℤ) : ℝ) / 2 ^ zoom * 360 - 180 ≤ lon := by
  have hn := two_pow_pos' zoom
  set a : ℝ := (lon + 180) / 360 * 2 ^ zoom with ha
  have ha0 : 0 ≤ a := by
    have : (0 : ℝ) ≤ lon + 180 := by linarith
    positivity
  rw [pyInt_eq_floor ha0]
  have hfl : ((⌊a⌋ : ℤ) : ℝ) ≤ a := Int.floor_le a
  have key : ((⌊a⌋ : ℤ) : ℝ) / 2 ^ zoom * 360 ≤ a / 2 ^ zoom * 360 := by gcongr
  have haeq : a / 2 ^ zoom * 360 = lon + 180 := by
    rw [ha]
    field_simp
    ring
  linarith [key, haeq ▸ key]

/-- The point `lon` lies strictly west of the SE longitude of its tile,
provided `lon ≥ -180`. -/
lemma lon_lt_tileLonSE (lon : ℝ) (zoom : ℕ) (h : -180 ≤ lon) :
    lon < (((pyInt ((lon + 180) / 360 * 2 ^ zoom) : ℤ) : ℝ) + 1) / 2 ^ zoom * 360 - 180 := by
  have hn := two_pow_pos' zoom
  set a : ℝ := (lon + 180) / 360 * 2 ^ zoom with ha
  have ha0 : 0 ≤ a := by
    have : (0 : ℝ) ≤ lon + 180 := by linarith
    positivity
  rw [pyInt_eq_floor ha0]
  have hfl : a < ((⌊a⌋ : ℤ) : ℝ) + 1 := Int.lt_floor_add_one a
  have key : a / 2 ^ zoom * 360 < (((⌊a⌋ : ℤ) : ℝ) + 1) / 2 ^ zoom * 360 := by gcongr
  have haeq : a / 2 ^ zoom * 360 = lon + 180 := by
    rw [ha]
    field_simp
    ring
  linarith [key, haeq ▸ key]

/-- The Mercator y-argument of `lon_lat_to_tile` is nonnegative within
Mercator latitude bounds. -/
lemma mercArg_nonneg {lat : ℝ} (zoom : ℕ)
    (hmerc : |arsinh (tan (radians lat))| ≤ π) :
    0 ≤ (1 - arsinh (tan (radians lat)) / π) / 2 * 2 ^ zoom := by
  have hπ := pi_pos
  have hm : arsinh (tan (radians lat)) ≤ π := (abs_le.1 hmerc).2
  have h1 : arsinh (tan (radians lat)) / π ≤ 1 := (div_le_one hπ).2 hm
  have hn := (two_pow_pos' zoom).le
  have h2 : (0 : ℝ) ≤ 1 - arsinh (tan (radians lat)) / π := by linarith
  have h3 : (0 : ℝ) ≤ (1 - arsinh (tan (radians lat)) / π) / 2 := by linarith
  exact mul_nonneg h3 hn

/-- Within Mercator bounds the latitude of the NW corner of the tile
computed for `lat` lies at or north of `lat`. -/
lemma lat_le_tileLatNW (lat : ℝ) (zoom : ℕ) (hlat : |lat| < 90)
    (hmerc : |arsinh (tan (radians lat))| ≤ π) :
    lat ≤ degrees (arctan (sinh (π *
      (1 - 2 * ((pyInt ((1 - arsinh (tan (radians lat)) / π) / 2 * 2 ^ zoom) : ℤ) : ℝ) / 2 ^ zoom)))) := by
  have hπ := pi_pos
  have hn := two_pow_pos' zoom
  have hb0 : 0 ≤ (1 - arsinh (tan (radians lat)) / π) / 2 * 2 ^ zoom :=
    mercArg_nonneg zoom hmerc
  rw [pyInt_eq_floor hb0]
  set m : ℝ := arsinh (tan (radians lat)) with hm
  set b : ℝ := (1 - m / π) / 2 * 2 ^ zoom with hb
  have hfl : ((⌊b⌋ : ℤ) : ℝ) ≤ b := Int.floor_le b
  have h2b : 2 * b / 2 ^ zoom = 1 - m / π := by
    rw [hb]
    field_simp
    ring
  have hkey : m ≤ π * (1 - 2 * ((⌊b⌋ : ℤ) : ℝ) / 2 ^ zoom) := by
    have h1 : 2 * ((⌊b⌋ : ℤ) : ℝ) / 2 ^ zoom ≤ 2 * b / 2 ^ zoom := by gcongr
    rw [h2b] at h1
    have h2 : m / π ≤ 1 - 2 * ((⌊b⌋ : ℤ) : ℝ) / 2 ^ zoom := by linarith
    have h3 : π * (m / π) ≤ π * (1 - 2 * ((⌊b⌋ : ℤ) : ℝ) / 2 ^ zoom) :=
      mul_le_mul_of_nonneg_left h2 hπ.le
    have h4 : π * (m / π) = m := by field_simp
    linarith
  have hsinh : tan (radians lat) ≤
      sinh (π * (1 - 2 * ((⌊b⌋ : ℤ) : ℝ) / 2 ^ zoom)) := by
    have h5 := Real.sinh_le_sinh.2 hkey
    rw [hm, Real.sinh_arsinh] at h5
    exact h5
  have harct : radians lat ≤
      arctan (sinh (π * (1 - 2 * ((⌊b⌋ : ℤ) : ℝ) / 2 ^ zoom))) := by
    have h6 := Real.arctan_strictMono.monotone hsinh
    rcases radians_mem_Ioo hlat with ⟨hl, hr⟩
    rwa [Real.arctan_tan hl hr] at h6
  have h7 := degrees_le_degrees harct
  rwa [degrees_radians] at h7

/-- Within Mercator bounds the latitude of the SE corner of the tile
computed for `lat` lies strictly south of `lat`. -/
lemma tileLatSE_lt_lat (lat : ℝ) (zoom : ℕ) (hlat : |lat| < 90)
    (hmerc : |arsinh (tan (radians lat))| ≤ π) :
    degrees (arctan (sinh (π *
      (1 - 2 * (((pyInt ((1 - arsinh (tan (radians lat)) / π) / 2 * 2 ^ zoom) : ℤ) : ℝ) + 1) / 2 ^ zoom)))) < lat := by
  have hπ := pi_pos
  have hn := two_pow_pos' zoom
  have hb0 : 0 ≤ (1 - arsinh (tan (radians lat)) / π) / 2 * 2 ^ zoom :=
    mercArg_nonneg zoom hmerc
  rw [pyInt_eq_floor hb0]
  set m : ℝ := arsinh (tan (radians lat)) with hm
  set b : ℝ := (1 - m / π) / 2 * 2 ^ zoom with hb
  have hfl : b < ((⌊b⌋ : ℤ) : ℝ) + 1 := Int.lt_floor_add_one b
  have h2b : 2 * b / 2 ^ zoom = 1 - m / π := by
    rw [hb]
    field_simp
    ring
  have hkey : π * (1 - 2 * (((⌊b⌋ : ℤ) : ℝ) + 1) / 2 ^ zoom) < m := by
    have h1 : 2 * b / 2 ^ zoom < 2 * (((⌊b⌋ : ℤ) : ℝ) + 1) / 2 ^ zoom := by gcongr
    rw [h2b] at h1
    have h2 : 1 - 2 * (((⌊b⌋ : ℤ) : ℝ) + 1) / 2 ^ zoom < m / π := by linarith
    have h3 : π * (1 - 2 * (((⌊b⌋ : ℤ) : ℝ) + 1) / 2 ^ zoom) < π * (m / π) :=
      mul_lt_mul_of_pos_left h2 hπ
    have h4 : π * (m / π) = m := by field_simp
    linarith
  have hsinh : sinh (π * (1 - 2 * (((⌊b⌋ : ℤ) : ℝ) + 1) / 2 ^ zoom)) <
      tan (radians lat) := by
    have h5 := Real.sinh_lt_sinh.2 hkey
    rw [hm, Real.sinh_arsinh] at h5
    exact h5
  have harct : arctan (sinh (π * (1 - 2 * (((⌊b⌋ : ℤ) : ℝ) + 1) / 2 ^ zoom))) <
      radians lat := by
    have h6 := Real.arctan_strictMono hsinh
    rcases radians_mem_Ioo hlat with ⟨hl, hr⟩
    rwa [Real.arctan_tan hl hr] at h6
  have h7 := degrees_lt_degrees harct
  rwa [degrees_radians] at h7

/-- C1: for every point with longitude at least -180 and latitude within
Mercator bounds, and every zoom level, the geodetic rectangle spanned by
the NW corner `tile_to_lon_lat x y zoom` and the SE corner
`tile_to_lon_lat (x+1) (y+1) zoom` of the tile
`(x, y) = lon_lat_to_tile lon lat zoom` contains the point `(lon, lat)`. -/
theorem roundTrip_tile_contains (lon lat : ℝ) (zoom : ℕ)
    (hlon : -180 ≤ lon) (hlat : |lat| < 90)
    (hmerc : |arsinh (tan (radians lat))| ≤ π) :
    (tile_to_lon_lat (lon_lat_to_tile lon lat zoom).1
        (lon_lat_to_tile lon lat zoom).2 zoom).1 ≤ lon ∧
      lon ≤ (tile_to_lon_lat ((lon_lat_to_tile lon lat zoom).1 + 1)
        ((lon_lat_to_tile lon lat zoom).2 + 1) zoom).1 ∧
      (tile_to_lon_lat ((lon_lat_to_tile lon lat zoom).1 + 1)
        ((lon_lat_to_tile lon lat zoom).2 + 1) zoom).2 ≤ lat ∧
      lat ≤ (tile_to_lon_lat (lon_lat_to_tile lon lat zoom).1
        (lon_lat_to_tile lon lat zoom).2 zoom).2 := by
  refine ⟨?_, ?_, ?_, ?_⟩
  · simpa [lon_lat_to_tile, tile_to_lon_lat] using tileLonNW_le lon zoom hlon
  · have h := (lon_lt_tileLonSE lon zoom hlon).le
    simp only [lon_lat_to_tile, tile_to_lon_lat]
    push_cast
    simpa using h
  · have h := (tileLatSE_lt_lat lat zoom hlat hmerc).le
    simp only [lon_lat_to_tile, tile_to_lon_lat]
    push_cast
    simpa using h
  · simpa [lon_lat_to_tile, tile_to_lon_lat] using
      lat_le_tileLatNW lat zoom hlat hmerc

/-- Witness for C1 at the concrete point `(lon, lat) = (0, 0)` and zoom 0. -/
theorem roundTrip_tile_contains_witness :
    (tile_to_lon_lat (lon_lat_to_tile 0 0 0).1 (lon_lat_to_tile 0 0 0).2 0).1 ≤ 0 ∧
      (0 : ℝ) ≤ (tile_to_lon_lat ((lon_lat_to_tile 0 0 0).1 + 1)
        ((lon_lat_to_tile 0 0 0).2 + 1) 0).1 ∧
      (tile_to_lon_lat ((lon_lat_to_tile 0 0 0).1 + 1)
        ((lon_lat_to_tile 0 0 0).2 + 1) 0).2 ≤ 0 ∧
      (0 : ℝ) ≤ (tile_to_lon_lat (lon_lat_to_tile 0 0 0).1 (lon_lat_to_tile 0 0 0).2 0).2 :=
  roundTrip_tile_contains 0 0 0 (by norm_num) (by norm_num)
    (by rw [show radians 0 = 0 by simp [radians], Real.tan_zero, Real.arsinh_zero,
          abs_zero]
        exact pi_nonneg)

/-- The longitude span of any tile is exactly `360 / 2^zoom`. -/
lemma tile_lon_span (zoom : ℕ) (x y y' : ℤ) :
    (tile_to_lon_lat (x + 1) y zoom).1 - (tile_to_lon_lat x y' zoom).1 =
      360 / 2 ^ zoom := by
  have hn := two_pow_pos' zoom
  simp only [tile_to_lon_lat]
  push_cast
  field_simp
  ring

/-- The latitude span of any tile is strictly negative: the SE corner lies
strictly south of the NW corner. -/
lemma tile_lat_span_neg (zoom : ℕ) (x x' y : ℤ) :
    (tile_to_lon_lat x' (y + 1) zoom).2 - (tile_to_lon_lat x y zoom).2 < 0 := by
  have hn := two_pow_pos' zoom
  simp only [tile_to_lon_lat]
  have harg : π * (1 - 2 * ((y : ℝ) + 1) / 2 ^ zoom) <
      π * (1 - 2 * (y : ℝ) / 2 ^ zoom) := by
    have h1 : 2 * (y : ℝ) / 2 ^ zoom < 2 * ((y : ℝ) + 1) / 2 ^ zoom := by
      gcongr
      linarith
    have hπ := pi_pos
    nlinarith
  have h2 := degrees_lt_degrees (arctan_strictMono (Real.sinh_lt_sinh.2 harg))
  push_cast
  linarith

/-- Python truncation toward zero is monotone. -/
lemma pyInt_mono {a b : ℝ} (h : a ≤ b) : pyInt a ≤ pyInt b := by
  unfold pyInt
  split_ifs with h1 h2 h2
  · exact Int.floor_le_floor h
  · linarith
  · calc ⌈a⌉ ≤ 0 := Int.ceil_le.2 (by push_cast; linarith)
    _ ≤ ⌊b⌋ := Int.floor_nonneg.2 h2
  · exact Int.ceil_le_ceil h

/-- For latitudes strictly inside (-90, 90), the tile Y index computed by
`lon_lat_to_tile` is antitone in the latitude. -/
lemma tileY_antitone {lat1 lat2 : ℝ} (zoom : ℕ) (h12 : lat1 ≤ lat2)
    (h1 : |lat1| < 90) (h2 : |lat2| < 90) (lon1 lon2 : ℝ) :
    (lon_lat_to_tile lon2 lat2 zoom).2 ≤ (lon_lat_to_tile lon1 lat1 zoom).2 := by
  have hπ := pi_pos
  have hn := (two_pow_pos' zoom).le
  have hrad : radians lat1 ≤ radians lat2 := by
    unfold radians
    have : (0 : ℝ) ≤ π / 180 := by positivity
    exact mul_le_mul_of_nonneg_right h12 this
  have htan : tan (radians lat1) ≤ tan (radians lat2) := by
    rcases radians_mem_Ioo h1 with ⟨ha, hb⟩
    rcases radians_mem_Ioo h2 with ⟨hc, hd⟩
    exact Real.strictMonoOn_tan.monotoneOn ⟨ha, hb⟩ ⟨hc, hd⟩ hrad
  have hm : arsinh (tan (radians lat1)) ≤ arsinh (tan (radians lat2)) :=
    Real.arsinh_le_arsinh.2 htan
  have harg : (1 - arsinh (tan (radians lat2)) / π) / 2 * 2 ^ zoom ≤
      (1 - arsinh (tan (radians lat1)) / π) / 2 * 2 ^ zoom := by
    have hdiv : arsinh (tan (radians lat1)) / π ≤
        arsinh (tan (radians lat2)) / π := by gcongr
    have hhalf : (1 - arsinh (tan (radians lat2)) / π) / 2 ≤
        (1 - arsinh (tan (radians lat1)) / π) / 2 := by linarith
    exact mul_le_mul_of_nonneg_right hhalf hn
  simp only [lon_lat_to_tile]
  exact pyInt_mono harg

/-- C8: for a bounding box with `min_lat ≤ max_lat` (latitudes inside
(-90, 90)), the tile range planner's `(minX, minY)` equals
`lon_lat_to_tile` of the NW corner `(min_lon, max_lat)`, its
`(maxX, maxY)` equals `lon_lat_to_tile` of the SE corner
`(max_lon, min_lat)`, and the Y range is inverted relative to latitude:
the maximum latitude yields `minY` and the minimum latitude yields
`maxY`, with `minY ≤ maxY`. -/
theorem tileRangePlan_corners (min_lon min_lat max_lon max_lat : ℝ) (zoom : ℕ)
    (hlat : min_lat ≤ max_lat) (h1 : |min_lat| < 90) (h2 : |max_lat| < 90) :
    (tileRangePlan min_lon min_lat max_lon max_lat zoom).minX =
        (lon_lat_to_tile min_lon max_lat zoom).1 ∧
      (tileRangePlan min_lon min_lat max_lon max_lat zoom).minY =
        (lon_lat_to_tile min_lon max_lat zoom).2 ∧
      (tileRangePlan min_lon min_lat max_lon max_lat zoom).maxX =
        (lon_lat_to_tile max_lon min_lat zoom).1 ∧
      (tileRangePlan min_lon min_lat max_lon max_lat zoom).maxY =
        (lon_lat_to_tile max_lon min_lat zoom).2 ∧
      (tileRangePlan min_lon min_lat max_lon max_lat zoom).minY ≤
        (tileRangePlan min_lon min_lat max_lon max_lat zoom).maxY := by
  refine ⟨rfl, rfl, rfl, rfl, ?_⟩
  show (lon_lat_to_tile max_lon max_lat zoom).2 ≤
    (lon_lat_to_tile min_lon min_lat zoom).2
  exact tileY_antitone zoom hlat h1 h2 min_lon max_lon

/-- Witness for C8 at a concrete Crystal-Mountain-like bounding box and
zoom 12. -/
theorem tileRangePlan_corners_witness :
    (tileRangePlan (-122) 46 (-121) 47 12).minX =
        (lon_lat_to_tile (-122) 47 12).1 ∧
      (tileRangePlan (-122) 46 (-121) 47 12).minY =
        (lon_lat_to_tile (-122) 47 12).2 ∧
      (tileRangePlan (-122) 46 (-121) 47 12).maxX =
        (lon_lat_to_tile (-121) 46 12).1 ∧
      (tileRangePlan (-122) 46 (-121) 47 12).maxY =
        (lon_lat_to_tile (-121) 46 12).2 ∧
      (tileRangePlan (-122) 46 (-121) 47 12).minY ≤
        (tileRangePlan (-122) 46 (-121) 47 12).maxY :=
  tileRangePlan_corners (-122) 46 (-121) 47 12 (by norm_num) (by norm_num)
    (by norm_num)

/-- C2 failing input: the planner performs no clamping, so the legal
longitude 180 produces the tile index `2^zoom` itself, outside the valid
range `[0, 2^zoom - 1]`.  Evaluated at the bounding box
`(0, 0, 180, 0)` and zoom 1, where the claimed bound is `maxX ≤ 1`. -/
theorem tileRangePlan_exceeds_bound :
    (tileRangePlan 0 0 180 0 1).maxX = 2 ∧
      (2 : ℤ) ^ 1 - 1 < (tileRangePlan 0 0 180 0 1).maxX := by
  have h : (tileRangePlan 0 0 180 0 1).maxX =
      pyInt ((180 + 180) / 360 * 2 ^ 1) := rfl
  have h2 : ((180 : ℝ) + 180) / 360 * 2 ^ 1 = 2 := by norm_num
  rw [h, h2, pyInt_eq_floor (by norm_num)]
  norm_num

/-- One GeoJSON line feature as consumed by the orchestrator: its vertex
list (longitude, latitude), idealized to exact reals, and the optional
`properties['type']` value. -/
structure GFeature where
  coords : List (ℝ × ℝ)
  liftType : Option String

/-- Observable outcome of one `generate_tiles` run: whether the output
directory was created (line 103 of the source), the bounding box
`(min_lon, min_lat, max_lon, max_lat)` when its computation succeeded
(lines 111–114), the `(zoom, x, y)` of every tile written (line 171),
and whether the run ended in an unhandled exception. -/
structure GenRun where
  dirCreated : Bool
  bbox : Option (ℝ × ℝ × ℝ × ℝ)
  tiles : List (ℕ × ℤ × ℤ)
  crashed : Bool

/-- Python `range(a, b + 1)` over integers: the inclusive ascending range,
empty when `b < a`. -/
def intRangeIncl (a b : ℤ) : List ℤ :=
  (List.range (b + 1 - a).toNat).map (fun i => a + (i : ℤ))

/-- The tiles rendered for one zoom level (lines 123–139 of the source):
the full product of the planned X and Y index ranges; one PNG is saved per
pair, unconditionally (line 171). -/
noncomputable def tilesForZoom (min_lon min_lat max_lon max_lat : ℝ)
    (zoom : ℕ) : List (ℤ × ℤ) :=
  let r := tileRangePlan min_lon min_lat max_lon max_lat zoom
  (intRangeIncl r.minX r.maxX).flatMap
    (fun x => (intRangeIncl r.minY r.maxY).map (fun y => (x, y)))

/-- Embedding of the orchestration of `generate_tiles` (lines 87–178 of
the source), with the GeoJSON feature collection already in memory.  The
output directory is created unconditionally (line 103) before the
bounding box is computed.  When the features contribute zero vertices,
`min()` at line 111 raises an unhandled `ValueError`, modelled by
`crashed := true`.  Otherwise the bounding box is the fold of min/max
over all vertices and every planned tile of every zoom in
`range(zoom_min, zoom_max + 1)` is written.  The source validates
neither `zoom_min ≤ zoom_max` nor anything else about the
configuration. -/
noncomputable def generate_tiles (features : List GFeature)
    (zoom_min zoom_max : ℕ) : GenRun :=
  match features.flatMap GFeature.coords with
  | [] => ⟨true, none, [], true⟩
  | c :: cs =>
      let min_lon := cs.foldl (fun a p => min a p.1) c.1
      let max_lon := cs.foldl (fun a p => max a p.1) c.1
      let min_lat := cs.foldl (fun a p => min a p.2) c.2
      let max_lat := cs.foldl (fun a p => max a p.2) c.2
      ⟨true, some (min_lon, min_lat, max_lon, max_lat),
       (List.range' zoom_min (zoom_max + 1 - zoom_min)).flatMap (fun z =>
         (tilesForZoom min_lon min_lat max_lon max_lat z).map
           (fun p => (z, p.1, p.2))), false⟩

/-- C3 failing input: with an empty feature collection, or features with
zero vertices in total, `generate_tiles` crashes with an unhandled
`ValueError` from `min()` over an empty sequence (after having created
the output directory), instead of surfacing a non-fatal "nothing to
generate" outcome. -/
theorem generateTiles_empty_input_crashes (zoom_min zoom_max : ℕ) :
    generate_tiles [] zoom_min zoom_max = ⟨true, none, [], true⟩ ∧
      generate_tiles [⟨[], some "gondola"⟩] zoom_min zoom_max =
        ⟨true, none, [], true⟩ :=
  ⟨rfl, rfl⟩

/-- C5 failing input: with `zoom_min = 5 > 3 = zoom_max`, `generate_tiles`
does not reject the configuration: it computes the bounding box, creates
the output directory, iterates an empty zoom range, and terminates
normally having written zero tiles. -/
theorem generateTiles_inverted_zoom_not_rejected :
    generate_tiles [⟨[(0, 0)], some "gondola"⟩] 5 3 =
      ⟨true, some (0, 0, 0, 0), [], false⟩ :=
  rfl

/-- A Python float as seen by the vertex filter: a finite real, NaN, or a
signed infinity.  Only the comparison behavior of the special values is
needed; finite arithmetic stays idealized as `ℝ`. -/
inductive PyFloat where
  | fin : ℝ → PyFloat
  | nan : PyFloat
  | pinf : PyFloat
  | ninf : PyFloat

/-- IEEE `<=` on Python floats: every comparison involving NaN is false,
`-inf` lies below and `+inf` above every non-NaN value. -/
def PyFloat.ple : PyFloat → PyFloat → Prop
  | .nan, _ => False
  | _, .nan => False
  | .ninf, _ => True
  | _, .pinf => True
  | .pinf, _ => False
  | _, .ninf => False
  | .fin a, .fin b => a ≤ b

/-- Whether a Python float is an ordinary finite value. -/
def PyFloat.isFinite : PyFloat → Bool
  | .fin _ => true
  | _ => false

/-- The vertex filter of lines 160–161 of the source: the chained Python
comparison testing a vertex against the tile bounds expanded by the
0.01-degree margin. -/
def nearTile (lonNW latNW lonSE latSE : ℝ) (v : PyFloat × PyFloat) : Prop :=
  PyFloat.ple (.fin (lonNW - 0.01)) v.1 ∧
    PyFloat.ple v.1 (.fin (lonSE + 0.01)) ∧
    PyFloat.ple (.fin (latSE - 0.01)) v.2 ∧
    PyFloat.ple v.2 (.fin (latNW + 0.01))

/-- The candidate vertex list of one feature for one tile (lines 145–146
and 157–163 of the source): tile bounds are derived from
`tile_to_lon_lat`, and the vertices passing `nearTile` survive, in
order. -/
noncomputable def candidates (coords : List (PyFloat × PyFloat)) (zoom : ℕ)
    (tile_x tile_y : ℤ) : List (PyFloat × PyFloat) :=
  let nw := tile_to_lon_lat tile_x tile_y zoom
  let se := tile_to_lon_lat (tile_x + 1) (tile_y + 1) zoom
  coords.filter (fun v =>
    @decide (nearTile nw.1 nw.2 se.1 se.2 v) (Classical.propDecidable _))

/-- Projection of one surviving vertex (line 162 of the source): finite
coordinates go through `lon_lat_to_pixel`; `int()` applied to NaN or an
infinity raises (`ValueError` / `OverflowError`), modelled by `none`. -/
noncomputable def projectVertex (v : PyFloat × PyFloat) (zoom : ℕ)
    (tile_x tile_y : ℤ) (tile_size : ℕ) : Option (ℤ × ℤ) :=
  match v with
  | (.fin lon, .fin lat) => lon_lat_to_pixel lon lat zoom tile_x tile_y tile_size
  | _ => none

/-- Sequential traversal with failure: the Python `for` loop that appends
one projected pixel per candidate and aborts the run on the first raised
exception. -/
def traverseOption {α β : Type} (f : α → Option β) : List α → Option (List β)
  | [] => some []
  | a :: l =>
      match f a, traverseOption f l with
      | some b, some bs => some (b :: bs)
      | _, _ => none

/-- The pixel list built for one feature in one tile (lines 157–163 of
the source); `none` is the crash channel. -/
noncomputable def featurePixels (coords : List (PyFloat × PyFloat)) (zoom : ℕ)
    (tile_x tile_y : ℤ) (tile_size : ℕ) : Option (List (ℤ × ℤ)) :=
  traverseOption (fun v => projectVertex v zoom tile_x tile_y tile_size)
    (candidates coords zoom tile_x tile_y)

/-- One line feature as consumed by the rasterizer, with coordinates kept
as Python floats. -/
structure RFeature where
  coords : List (PyFloat × PyFloat)
  liftType : Option String

/-- Rendering of one feature into one tile (lines 151–167 of the source):
resolve its style, build its pixel list, and draw a polyline only when at
least two pixels survive.  The outer `Option` is the crash channel; the
inner value is `none` when the feature is skipped without drawing, and
otherwise carries the drawn color, line width and pixel sequence. -/
noncomputable def renderFeature (f : RFeature) (zoom : ℕ) (tile_x tile_y : ℤ)
    (tile_size : ℕ) : Option (Option (String × ℕ × List (ℤ × ℤ))) :=
  (featurePixels f.coords zoom tile_x tile_y tile_size).map
    (fun pixels =>
      if 2 ≤ pixels.length then
        some (resolveFeatureColor f.liftType, get_lift_width zoom, pixels)
      else none)

/-- Rendering of one whole tile (lines 140–171 of the source): every
feature is rendered in input order onto the transparent canvas. -/
noncomputable def renderTile (features : List RFeature) (zoom : ℕ)
    (tile_x tile_y : ℤ) (tile_size : ℕ) :
    Option (List (Option (String × ℕ × List (ℤ × ℤ)))) :=
  traverseOption (fun f => renderFeature f zoom tile_x tile_y tile_size) features

/-- A vertex passing the `nearTile` filter has two finite coordinates:
every comparison with NaN or an infinity on the tested side fails. -/
lemma nearTile_finite {lonNW latNW lonSE latSE : ℝ} {v : PyFloat × PyFloat}
    (h : nearTile lonNW latNW lonSE latSE v) :
    ∃ a b, v = (.fin a, .fin b) := by
  obtain ⟨h1, h2, h3, h4⟩ := h
  rcases v with ⟨a, b⟩
  cases a <;> cases b <;> simp_all [PyFloat.ple]

/-- The projection `lon_lat_to_pixel` always succeeds: both tile spans are
nonzero in exact arithmetic. -/
lemma lon_lat_to_pixel_isSome (lon lat : ℝ) (zoom : ℕ) (tile_x tile_y : ℤ)
    (tile_size : ℕ) :
    (lon_lat_to_pixel lon lat zoom tile_x tile_y tile_size).isSome = true := by
  have hn := two_pow_pos' zoom
  have hlon : (tile_to_lon_lat (tile_x + 1) (tile_y + 1) zoom).1 -
      (tile_to_lon_lat tile_x tile_y zoom).1 = 360 / 2 ^ zoom :=
    tile_lon_span zoom tile_x (tile_y + 1) tile_y
  have hlonpos : (0 : ℝ) < 360 / 2 ^ zoom := by positivity
  have hlat := tile_lat_span_neg zoom tile_x (tile_x + 1) tile_y
  simp only [lon_lat_to_pixel]
  rw [if_neg]
  · rfl
  · push_neg
    exact ⟨by rw [hlon]; exact hlonpos.ne', hlat.ne⟩

/-- Every vertex in the candidate list of a tile is finite in both
coordinates. -/
lemma mem_candidates_finite {coords : List (PyFloat × PyFloat)} {zoom : ℕ}
    {tile_x tile_y : ℤ} {v : PyFloat × PyFloat}
    (h : v ∈ candidates coords zoom tile_x tile_y) :
    ∃ a b, v = (.fin a, .fin b) := by
  simp only [candidates] at h
  have h2 := (List.mem_filter.1 h).2
  exact nearTile_finite (@of_decide_eq_true _ (Classical.propDecidable _) h2)

/-- A traversal over elements on which the step never fails does not
fail. -/
lemma traverseOption_isSome {α β : Type} (f : α → Option β) (l : List α)
    (h : ∀ a ∈ l, (f a).isSome = true) :
    (traverseOption f l).isSome = true := by
  induction l with
  | nil => rfl
  | cons a l ih =>
      have ha := h a (by simp)
      have hl := ih (fun x hx => h x (by simp [hx]))
      simp only [traverseOption]
      cases hfa : f a <;> cases hft : traverseOption f l <;> simp_all

/-- A successful traversal preserves the list length. -/
lemma traverseOption_length {α β : Type} (f : α → Option β) (l : List α)
    (bs : List β) (h : traverseOption f l = some bs) :
    bs.length = l.length := by
  induction l generalizing bs with
  | nil =>
      simp only [traverseOption] at h
      cases h
      rfl
  | cons a l ih =>
      simp only [traverseOption] at h
      cases hfa : f a with
      | none =>
          rw [hfa] at h
          cases hft : traverseOption f l <;> rw [hft] at h <;> simp at h
      | some b =>
          rw [hfa] at h
          cases hft : traverseOption f l with
          | none =>
              rw [hft] at h
              simp at h
          | some bs2 =>
              rw [hft] at h
              cases h
              simp [ih bs2 hft]

/-- The pixel list of any feature in any tile is built without a crash. -/
lemma featurePixels_isSome (coords : List (PyFloat × PyFloat)) (zoom : ℕ)
    (tile_x tile_y : ℤ) (tile_size : ℕ) :
    (featurePixels coords zoom tile_x tile_y tile_size).isSome = true :=
  traverseOption_isSome _ _ (fun v hv => by
    obtain ⟨a, b, rfl⟩ := mem_candidates_finite hv
    simpa [projectVertex] using
      lon_lat_to_pixel_isSome a b zoom tile_x tile_y tile_size)

/-- Rendering one feature into one tile never crashes. -/
lemma renderFeature_isSome (f : RFeature) (zoom : ℕ) (tile_x tile_y : ℤ)
    (tile_size : ℕ) :
    (renderFeature f zoom tile_x tile_y tile_size).isSome = true := by
  have h := featurePixels_isSome f.coords zoom tile_x tile_y tile_size
  simp only [renderFeature]
  cases hfp : featurePixels f.coords zoom tile_x tile_y tile_size <;> simp_all

/-- Filtering by the vertex test is unchanged by first removing the
non-finite vertices: the test never passes a NaN or infinite
coordinate. -/
lemma filter_nearTile_finite (A B C D : ℝ)
    (coords : List (PyFloat × PyFloat)) :
    coords.filter (fun v => @decide (nearTile A B C D v)
        (Classical.propDecidable _)) =
      (coords.filter (fun v => v.1.isFinite && v.2.isFinite)).filter
        (fun v => @decide (nearTile A B C D v) (Classical.propDecidable _)) := by
  rw [List.filter_filter]
  apply List.filter_congr
  intro v _
  by_cases hv : nearTile A B C D v
  · obtain ⟨a, b, rfl⟩ := nearTile_finite hv
    simp [@decide_eq_true _ (Classical.propDecidable _) hv, PyFloat.isFinite]
  · simp [@decide_eq_false _ (Classical.propDecidable _) hv]

/-- C6: if fewer than two pixels survive the tile filter and projection
for a feature (in particular whenever the feature has at most one vertex,
and so certainly for a single-vertex feature in any tile), that feature is
skipped: the tile render records no drawn line for it. -/
theorem renderFeature_skips_short (f : RFeature) (zoom : ℕ)
    (tile_x tile_y : ℤ) (tile_size : ℕ) (pixels : List (ℤ × ℤ))
    (hpx : featurePixels f.coords zoom tile_x tile_y tile_size = some pixels)
    (hshort : pixels.length < 2 ∨ f.coords.length ≤ 1) :
    renderFeature f zoom tile_x tile_y tile_size = some none := by
  have hlen : pixels.length < 2 := by
    rcases hshort with h | h
    · exact h
    · have h1 := traverseOption_length _ _ _ hpx
      have h2 : (candidates f.coords zoom tile_x tile_y).length ≤
          f.coords.length := by
        simp only [candidates]
        exact List.length_filter_le _ _
      omega
  simp only [renderFeature, hpx, Option.map_some']
  rw [if_neg (by omega)]

/-- Witness for C6: a feature with an empty vertex list in tile
`(0, 0)` at zoom 0 draws nothing. -/
theorem renderFeature_skips_short_witness :
    renderFeature ⟨[], none⟩ 0 0 0 256 = some none :=
  renderFeature_skips_short ⟨[], none⟩ 0 0 0 256 [] rfl (Or.inr (by decide))

/-- C9: for every tile, a vertex with a NaN or infinite coordinate is
excluded from that tile's candidate vertex list (removing the non-finite
vertices up front changes nothing), and the rendering of every tile on
every feature list runs to completion (`isSome`) rather than aborting, so
all remaining tiles are rendered as well. -/
theorem nonFinite_vertices_dropped (coords : List (PyFloat × PyFloat))
    (features : List RFeature) (zoom : ℕ) (tile_x tile_y : ℤ)
    (tile_size : ℕ) :
    candidates coords zoom tile_x tile_y =
        candidates (coords.filter (fun v => v.1.isFinite && v.2.isFinite))
          zoom tile_x tile_y ∧
      (renderTile features zoom tile_x tile_y tile_size).isSome = true := by
  constructor
  · simp only [candidates]
    exact filter_nearTile_finite _ _ _ _ coords
  · exact traverseOption_isSome _ _
      (fun f _ => renderFeature_isSome f zoom tile_x tile_y tile_size)

/-- Witness for C10: a feature without a `'type'` key gets the chair-lift
blue, and the unknown type `"ropeway"` reaches the gray fallback only
because it is absent from the table. -/
theorem resolveFeatureColor_default_witness :
    resolveFeatureColor none = "#0066FF" ∧
      ∃ s, (some "ropeway" : Option String) = some s ∧
        liftColorTable.lookup s = none :=
  ⟨(resolveFeatureColor_default none).1 rfl,
   (resolveFeatureColor_default (some "ropeway")).2 (by decide)⟩
